import Mathlib

/-!
# SHLOKASPHERE message-synchronization core: a shallow embedding

This file embeds the message-reconciliation state machine of the
SHLOKASPHERE chat client (`messagesReducer` and the surrounding hook code
in `src/SHLOKASPHERE.js` and `src/unnamed/part_000`) as executable Lean
definitions, and proves the spec's testable properties about them.

Modelling conventions:
* JS objects whose enrichment keys may be absent, explicitly `null`, or
  hold a value are modelled with the three-valued `JField`; object spread
  `{ ...m, ...incoming }` keeps the old value exactly when the incoming
  key is absent (`JField.missing`), and overwrites it otherwise (also
  when the incoming value is `null`).
* The `nonce` key is either absent (`none`) or a string; JS truthiness
  of `message.nonce` is `nonceTruthy` (absent, `null` and `""` are falsy).
* Payload contents that the reducer never inspects (sentiment objects,
  entity lists, translations, timestamps, cursors) are modelled opaquely.
-/

namespace Shloka

/-- A JS object field that may be absent, explicitly `null`, or a value. -/
inductive JField (α : Type) where
  | missing : JField α
  | null : JField α
  | val : α → JField α
deriving DecidableEq, Repr

/-- A chat message / Firestore document, as handled by `messagesReducer`.
Enrichment payloads are opaque to the reducer and modelled as strings. -/
structure Message where
  id : String
  nonce : Option String
  user : String
  text : String
  sender : String
  timestamp : Option Nat
  tokens : Nat
  sentiment : JField String
  entities : JField (List String)
  translation : JField String
deriving DecidableEq, Repr

/-- The Ledger state owned by `useMessages` (`messagesInitialState` shape):
`{ messages, isTyping, lastDoc, hasMore, isLoading, isLoadingMore }`.
The pagination cursor `lastDoc` is an opaque document handle. -/
structure LState where
  messages : List Message
  isTyping : Bool
  lastDoc : Option String
  hasMore : Bool
  isLoading : Bool
  isLoadingMore : Bool
deriving DecidableEq, Repr

/-- `messagesInitialState` from the source. -/
def messagesInitialState : LState :=
  { messages := [], isTyping := false, lastDoc := none, hasMore := true,
    isLoading := true, isLoadingMore := false }

/-- The action types dispatched to `messagesReducer` (the `actionTypes`
table), each carrying its payload. -/
inductive Action where
  | setLoading (b : Bool)
  | setLoadingMore (b : Bool)
  | setTyping (b : Bool)
  | initialLoad (msgs : List Message) (lastDoc : Option String) (hasMore : Bool)
  | loadMore (msgs : List Message) (lastDoc : Option String) (hasMore : Bool)
  | addOptimistic (m : Message)
  | removeOptimistic (nonce : String)
  | realtimeAdded (m : Message)
  | realtimeModified (m : Message)
deriving DecidableEq, Repr

/-- JS truthiness of the `nonce` field: absent, `null` and `""` are falsy. -/
def nonceTruthy : Option String → Bool
  | none => false
  | some s => !(s == "")

/-- Object spread `{ ...m, ...incoming }` on one optional field: the
incoming key overwrites exactly when it is present (also when `null`). -/
def mergeField {α : Type} (old new : JField α) : JField α :=
  match new with
  | .missing => old
  | .null => .null
  | .val v => .val v

/-- Spread behaviour for the `nonce` key: absent keeps the old value. -/
def mergeNonce (old new : Option String) : Option String :=
  match new with
  | none => old
  | some n => some n

/-- `{ ...m, ...incoming }` for a full pushed document: the mandatory
keys (`id`, `user`, `text`, `sender`, `timestamp`, `tokens`) are always
present on a pushed document and overwrite; the optional keys follow
spread semantics. -/
def mergeMsg (m incoming : Message) : Message :=
  { id := incoming.id
    nonce := mergeNonce m.nonce incoming.nonce
    user := incoming.user
    text := incoming.text
    sender := incoming.sender
    timestamp := incoming.timestamp
    tokens := incoming.tokens
    sentiment := mergeField m.sentiment incoming.sentiment
    entities := mergeField m.entities incoming.entities
    translation := mergeField m.translation incoming.translation }

/-- The `REALTIME_ADDED` fallback after the nonce branch: ignore when the
exact id is already present, otherwise append. -/
def realtimeAddedFallback (state : LState) (m : Message) : LState :=
  if state.messages.any (fun x => x.id == m.id) then state
  else { state with messages := state.messages ++ [m] }

/-- `messagesReducer` from the source, case by case.  The JS `default`
branch throws and is unreachable over the `Action` type. -/
def messagesReducer (state : LState) (action : Action) : LState :=
  match action with
  | .setLoading b => { state with isLoading := b }
  | .setLoadingMore b => { state with isLoadingMore := b }
  | .setTyping b => { state with isTyping := b }
  | .initialLoad msgs last hm =>
      { state with messages := msgs, lastDoc := last, hasMore := hm,
                   isLoading := false }
  | .loadMore msgs last hm =>
      { state with messages := msgs ++ state.messages, lastDoc := last,
                   hasMore := hm, isLoadingMore := false }
  | .addOptimistic m => { state with messages := state.messages ++ [m] }
  | .removeOptimistic n =>
      { state with messages := state.messages.filter (fun m => !(m.id == n)) }
  | .realtimeAdded m =>
      match m.nonce with
      | some n =>
          if n == "" then realtimeAddedFallback state m
          else
            match state.messages.findIdx? (fun x => x.id == n) with
            | some k => { state with messages := state.messages.set k m }
            | none => realtimeAddedFallback state m
      | none => realtimeAddedFallback state m
  | .realtimeModified m =>
      { state with
        messages := state.messages.map
          (fun x => if x.id == m.id then mergeMsg x m else x) }

/-- Processing a whole sequence of `REALTIME_ADDED` pushes. -/
def processAdded (s : LState) (evts : List Message) : LState :=
  evts.foldl (fun st e => messagesReducer st (.realtimeAdded e)) s

/-- How many messages in a list carry a given id. -/
def countId (ms : List Message) (i : String) : Nat :=
  ms.countP (fun m => m.id == i)

/-- `moderateContent` from the source: the fixed banned-term list. -/
def bannedWords : List String := ["badword1", "badword2"]

/-- `moderateContent(text)`: `bannedWords.some(word => text.includes(word))`.
JS `String.prototype.includes` is case-sensitive substring containment,
embedded as list-of-character infix. -/
def moderateContent (text : String) : Bool :=
  bannedWords.any (fun word => decide (word.toList <:+: text.toList))

/-- The spec's words for the moderation gate (§4.1): true iff the text
contains `"badword1"` or `"badword2"` as a case-sensitive substring. -/
def isBlockedSpec (text : String) : Prop :=
  "badword1".toList <:+: text.toList ∨ "badword2".toList <:+: text.toList

instance (text : String) : Decidable (isBlockedSpec text) := by
  unfold isBlockedSpec; infer_instance

/-- `messageText.split(/\s+/).length`, claim-irrelevant token count. -/
def tokensOf (text : String) : Nat := (text.splitOn " ").length

/-- Result of one `sendMessage` invocation: the Ledger state after the
send settles, the `aiResponseCount.current` value, and whether a store
append (`sendMessageToFirestore`) was attempted. -/
structure SendOutcome where
  state : LState
  counter : Nat
  storeAppendAttempted : Bool
deriving DecidableEq, Repr

/-- The synchronous-and-rollback part of `sendMessage`: moderation gate,
optimistic insert (`ADD_OPTIMISTIC`), counter bump and `SET_TYPING true`,
then the store append, whose failure (`storeAppendFails`) triggers
`REMOVE_OPTIMISTIC`, the counter decrement and the conditional
`SET_TYPING false`.  The AI-response and analysis continuations are
modelled separately (`typingStep`). -/
def sendMessageModel (s : LState) (count : Nat) (text : String)
    (nonce : String) (userEmail : String) (now : Option Nat)
    (storeAppendFails : Bool) : SendOutcome :=
  if moderateContent text then
    ⟨s, count, false⟩
  else
    let optimistic : Message :=
      { id := nonce, nonce := some nonce, user := userEmail, text := text,
        sender := "user", timestamp := now, tokens := tokensOf text,
        sentiment := .null, entities := .val [], translation := .null }
    let s1 := messagesReducer s (.addOptimistic optimistic)
    let count1 := count + 1
    let s2 := messagesReducer s1 (.setTyping true)
    if storeAppendFails then
      let s3 := messagesReducer s2 (.removeOptimistic nonce)
      let count2 := count1 - 1
      let s4 := if count2 = 0 then messagesReducer s3 (.setTyping false) else s3
      ⟨s4, count2, true⟩
    else ⟨s2, count1, true⟩

/-- Outcome of the older-page Firestore query issued by `loadMore`:
either the (already normalized, oldest-first) batch together with the
new cursor, or a thrown `StoreReadError`. -/
inductive FetchResult where
  | success (batch : List Message) (newLast : Option String)
  | failure
deriving DecidableEq, Repr

/-- `loadMore` from the source: no-op when `!hasMore || isLoadingMore`;
otherwise dispatch `SET_LOADING_MORE true`, run the query, and on success
dispatch `LOAD_MORE` with `hasMore = (batch length == 20)`.  The `catch`
branch only raises a toast — it dispatches nothing. -/
def loadMoreModel (s : LState) (r : FetchResult) : LState :=
  if !s.hasMore || s.isLoadingMore then s
  else
    let s1 := messagesReducer s (.setLoadingMore true)
    match r with
    | .success batch newLast =>
        messagesReducer s1 (.loadMore batch newLast (batch.length == 20))
    | .failure => s1

/-!
## The composing-indicator counter

`aiResponseCount` together with the `SET_TYPING` dispatches, as a
transition system over atomic event-loop steps.  Each send contributes
one `start` step (the `aiResponseCount.current++` / `SET_TYPING true`
block) and exactly one `resolve` step: either the `catch` of the store
append, or the `finally` of `fetchAIResponse` — both on the success and
on the failure path of the AI request, hence the `resolve` step carries
a success flag that the code path does not consult.
-/

/-- One atomic step of the in-flight-response bookkeeping. -/
inductive SendEvt where
  | start : SendEvt
  | resolve (success : Bool) : SendEvt
deriving DecidableEq, Repr

/-- The shared counter plus the typing indicator. -/
structure TypingState where
  count : Nat
  isTyping : Bool
deriving DecidableEq, Repr

/-- `start`: `aiResponseCount.current++; dispatch(SET_TYPING true)`.
`resolve`: `aiResponseCount.current--; if (count === 0) dispatch(SET_TYPING false)`. -/
def typingStep (s : TypingState) : SendEvt → TypingState
  | .start => { count := s.count + 1, isTyping := true }
  | .resolve _ =>
      let c := s.count - 1
      { count := c, isTyping := if c = 0 then false else s.isTyping }

/-- Run a trace of steps. -/
def runTyping (s : TypingState) (l : List SendEvt) : TypingState :=
  l.foldl typingStep s

/-- A trace is well-formed from a given counter value when every
`resolve` is matched by a prior unresolved `start`: each request
resolves at most once. -/
def noUnderflow : Nat → List SendEvt → Prop
  | _, [] => True
  | c, .start :: rest => noUnderflow (c + 1) rest
  | c, .resolve _ :: rest => 0 < c ∧ noUnderflow (c - 1) rest

def noUnderflowDec : ∀ c l, Decidable (noUnderflow c l)
  | _, [] => .isTrue trivial
  | c, .start :: rest => noUnderflowDec (c + 1) rest
  | c, .resolve _ :: rest =>
      @instDecidableAnd _ _ _ (noUnderflowDec (c - 1) rest)

instance : ∀ c l, Decidable (noUnderflow c l) := noUnderflowDec

/-- How many `start` steps a trace contains. -/
def countStarts (l : List SendEvt) : Nat :=
  l.countP (fun e => match e with | .start => true | _ => false)

/-- How many `resolve` steps a trace contains. -/
def countResolves (l : List SendEvt) : Nat :=
  l.countP (fun e => match e with | .resolve _ => true | _ => false)

/-!
## The sentiment analysis cache

`apiCache` over `sessionStorage` plus `analyzeSentiment` from
`src/unnamed/part_000`, with the external world (storage contents,
service behaviour, storage-write failure) passed explicitly.  Stored
values are the JSON-serialized service responses; a present response
object is truthy, so a cache hit short-circuits the call.
-/

/-- The explicit world of `analyzeSentiment`: the session cache, the
sentiment service (`none` = network failure or non-ok response), whether
`sessionStorage.setItem` throws, and an instrumentation counter of
service calls actually issued. -/
structure CacheWorld where
  cache : List (String × String)
  svcSentiment : String → Option String
  putFails : Bool
  svcCalls : Nat

/-- `apiCache.get`: `sessionStorage.getItem` + parse; `null` on a miss. -/
def cacheGet (w : CacheWorld) (k : String) : Option String :=
  (w.cache.find? (fun p => p.1 == k)).map (fun p => p.2)

/-- `apiCache.set`: storage errors (quota) are swallowed, leaving the
cache unchanged. -/
def cacheSet (w : CacheWorld) (k v : String) : CacheWorld :=
  if w.putFails then w else { w with cache := (k, v) :: w.cache }

/-- `analyzeSentiment(text)` from `src/unnamed/part_000`: consult the
cache under key `sentiment:<text>`; on a miss issue the service call;
on success write through the cache (best effort) and return the data;
on failure return `null`. -/
def analyzeSentimentM (text : String) (w : CacheWorld) :
    Option String × CacheWorld :=
  let key := "sentiment:" ++ text
  match cacheGet w key with
  | some d => (some d, w)
  | none =>
      let w1 : CacheWorld := { w with svcCalls := w.svcCalls + 1 }
      match w.svcSentiment text with
      | some data => (some data, cacheSet w1 key data)
      | none => (none, w1)

/-!
## Helper lemmas and concrete inputs
-/

/-- A plain message with the given id and nonce, default everything else. -/
def mkMsg (i : String) (n : Option String) : Message :=
  { id := i, nonce := n, user := "u@example.com", text := "t",
    sender := "user", timestamp := none, tokens := 1,
    sentiment := .missing, entities := .missing, translation := .missing }

/-- A `REALTIME_ADDED` event whose nonce is not truthy takes the
dedup-by-id fallback branch. -/
lemma realtimeAdded_eq_fallback (s : LState) (m : Message)
    (h : nonceTruthy m.nonce = false) :
    messagesReducer s (.realtimeAdded m) = realtimeAddedFallback s m := by
  match hm : m.nonce with
  | none => simp [messagesReducer, hm]
  | some n =>
      rw [hm] at h
      simp only [nonceTruthy, Bool.not_eq_false'] at h
      simp [messagesReducer, hm, h]

/-- The `some(m => m.id === j)` check succeeds iff the id occurs. -/
lemma any_id_iff_countId_pos (ms : List Message) (j : String) :
    (ms.any (fun x => x.id == j) = true) ↔ 0 < countId ms j := by
  unfold countId
  rw [List.any_eq_true, List.countP_pos_iff]

/-- Appending one message adjusts `countId` by its id. -/
lemma countId_append_single (ms : List Message) (e : Message) (i : String) :
    countId (ms ++ [e]) i = countId ms i + (if e.id = i then 1 else 0) := by
  unfold countId
  rw [List.countP_append]
  simp [List.countP_cons]

/-- `countId` after the dedup-by-id fallback. -/
lemma countId_fallback (s : LState) (e : Message) (i : String) :
    countId (realtimeAddedFallback s e).messages i =
      if 0 < countId s.messages e.id then countId s.messages i
      else countId s.messages i + (if e.id = i then 1 else 0) := by
  unfold realtimeAddedFallback
  cases hb : s.messages.any (fun x => x.id == e.id) with
  | true =>
      rw [if_pos ((any_id_iff_countId_pos _ _).mp hb)]
      simp [hb]
  | false =>
      have : ¬ 0 < countId s.messages e.id := by
        intro hpos
        rw [← any_id_iff_countId_pos] at hpos
        simp [hb] at hpos
      rw [if_neg this]
      simp [hb, countId_append_single]

/-- Filtering away an id that does not occur changes nothing. -/
lemma filter_ne_id_eq_self (ms : List Message) (n : String)
    (h : ∀ m ∈ ms, m.id ≠ n) :
    ms.filter (fun m => !(m.id == n)) = ms := by
  rw [List.filter_eq_self]
  intro a ha
  simpa using h a ha

/-- A present, non-`null` incoming field never reverts a set field. -/
lemma mergeField_preserves_val {α : Type} (old new : JField α) (v : α)
    (hv : old = .val v) (hn : new ≠ .null) :
    ∃ w, mergeField old new = JField.val w := by
  cases new with
  | missing => exact ⟨v, by simp [mergeField, hv]⟩
  | null => exact absurd rfl hn
  | val w => exact ⟨w, rfl⟩

/-- Mapping a function that fixes every member is the identity. -/
lemma map_eq_self_of_mem {α : Type} (f : α → α) (l : List α)
    (h : ∀ x ∈ l, f x = x) : l.map f = l := by
  induction l with
  | nil => rfl
  | cons a t ih =>
      simp only [List.map_cons]
      rw [h a (List.mem_cons_self a t),
        ih (fun x hx => h x (List.mem_cons_of_mem a hx))]

/-- Replacing the messages list by itself is the identity on states. -/
lemma lstate_eq_of_messages_eq (s : LState) (ms : List Message)
    (h : ms = s.messages) : ({ s with messages := ms } : LState) = s := by
  rw [h]

/-- The incoming document carries no explicitly-`null` enrichment field.
Store documents satisfy this: every writer guards the enrichment keys
with JS truthiness (`...(sentiment && { sentiment })` and siblings), and
the original `messageForDb` carries no enrichment keys at all. -/
def noNullEnrichment (e : Message) : Prop :=
  e.sentiment ≠ JField.null ∧ e.entities ≠ JField.null ∧
    e.translation ≠ JField.null

instance (e : Message) : Decidable (noNullEnrichment e) := by
  unfold noNullEnrichment; infer_instance

/-- A confirmed message with sentiment and entities already set. -/
def c5State : LState :=
  { messagesInitialState with
      messages := [{ mkMsg "srv1" (some "temp_1") with
        sentiment := JField.val "old", entities := JField.val ["x"],
        translation := JField.missing }] }

/-- An enrichment push for `srv1` carrying only entities and translation. -/
def c5Event : Message :=
  { mkMsg "srv1" none with
      sentiment := JField.missing, entities := JField.val [],
      translation := JField.val "T" }

/-- A state whose only message has a different id than `c5Event`. -/
def c5Other : LState :=
  { messagesInitialState with messages := [mkMsg "other" none] }

/-- A world in which the sentiment service is down. -/
def svcFailWorld : CacheWorld :=
  { cache := [], svcSentiment := fun _ => none, putFails := false,
    svcCalls := 0 }

/-- A world with an empty cache and a working sentiment service. -/
def svcOkWorld : CacheWorld :=
  { cache := [], svcSentiment := fun _ => some "POS", putFails := false,
    svcCalls := 0 }

/-!
## Claim theorems
-/

/-- C3: for every Ledger state `s` and every nonce `n` not already used
as an id in `s`, `ADD_OPTIMISTIC` of the optimistic message (whose id is
`n`) followed by `REMOVE_OPTIMISTIC` for `n` returns the messages list
exactly to its value in `s`. -/
theorem addOptimistic_removeOptimistic_rollback (s : LState) (opt : Message)
    (n : String) (hid : opt.id = n) (h : ∀ m ∈ s.messages, m.id ≠ n) :
    (messagesReducer (messagesReducer s (.addOptimistic opt))
        (.removeOptimistic n)).messages = s.messages := by
  have h2 : [opt].filter (fun m => !(m.id == n)) = [] := by simp [hid]
  simp only [messagesReducer, List.filter_append, h2, List.append_nil,
    filter_ne_id_eq_self s.messages n h]

/-- Witness for C3 at a concrete two-message state. -/
theorem addOptimistic_removeOptimistic_rollback_witness :
    (messagesReducer
        (messagesReducer
          { messagesInitialState with messages := [mkMsg "a" none, mkMsg "b" none] }
          (.addOptimistic (mkMsg "temp_1" (some "temp_1"))))
        (.removeOptimistic "temp_1")).messages
      = [mkMsg "a" none, mkMsg "b" none] :=
  addOptimistic_removeOptimistic_rollback
    { messagesInitialState with messages := [mkMsg "a" none, mkMsg "b" none] }
    (mkMsg "temp_1" (some "temp_1")) "temp_1" rfl (by decide)

/-- C10: `REMOVE_OPTIMISTIC` with a nonce `n` that no message carries as
its id leaves the whole Ledger state unchanged; in particular a late
`SendFailed` after optimistic-to-confirmed substitution (where the entry
now carries the store-assigned id, not `n`) removes nothing. -/
theorem removeOptimistic_noop (s : LState) (n : String)
    (h : ∀ m ∈ s.messages, m.id ≠ n) :
    messagesReducer s (.removeOptimistic n) = s := by
  simp only [messagesReducer, filter_ne_id_eq_self s.messages n h]

/-- Witness for C10: the post-substitution scenario — the confirmed
message (store id `srv1`, nonce `temp_1`) survives a late `SendFailed`
for `temp_1`. -/
theorem removeOptimistic_noop_witness :
    messagesReducer
        { messagesInitialState with messages := [mkMsg "srv1" (some "temp_1")] }
        (.removeOptimistic "temp_1")
      = { messagesInitialState with messages := [mkMsg "srv1" (some "temp_1")] } :=
  removeOptimistic_noop
    { messagesInitialState with messages := [mkMsg "srv1" (some "temp_1")] }
    "temp_1" (by decide)

/-- C8: `moderateContent` returns true iff the text contains an element
of the fixed banned-term set as a case-sensitive substring (the spec's
`isBlockedSpec`); it is a pure function of its input; and a blocked text
terminates `sendMessage` before `ADD_OPTIMISTIC`: the state is returned
untouched and no store append is attempted. -/
theorem moderation_gate_correct (t : String) (s : LState) (c : Nat)
    (n u : String) (now : Option Nat) (fail : Bool) :
    (moderateContent t = true ↔ isBlockedSpec t) ∧
    (moderateContent t = true →
        sendMessageModel s c t n u now fail = ⟨s, c, false⟩) := by
  constructor
  · simp [moderateContent, bannedWords, isBlockedSpec]
  · intro hb
    simp [sendMessageModel, hb]

/-- Witness for C8 at the spec's own example texts: the dirty text is
blocked and its send is a no-op with no append attempted. -/
theorem moderation_gate_correct_witness :
    ((moderateContent "this contains badword1" = true ↔
        isBlockedSpec "this contains badword1") ∧
      (moderateContent "this contains badword1" = true →
        sendMessageModel messagesInitialState 0 "this contains badword1"
          "temp_1" "u@example.com" none false
          = ⟨messagesInitialState, 0, false⟩)) ∧
    moderateContent "a clean message" = false :=
  ⟨moderation_gate_correct "this contains badword1" messagesInitialState 0
      "temp_1" "u@example.com" none false,
    by decide⟩

/-- C6: a successful `LOAD_MORE` with a batch of size `b` prepends the
batch without disturbing the existing tail — the result has length
`b + n`, its first `b` entries are the batch in its internal order, its
last `n` entries are the previous messages in their original order — and
`hasMore` becomes true iff `b = 20` (the requested page size). -/
theorem loadMore_prepends (s : LState) (batch : List Message)
    (newLast : Option String) (h1 : s.hasMore = true)
    (h2 : s.isLoadingMore = false) :
    (loadMoreModel s (.success batch newLast)).messages.length
        = batch.length + s.messages.length ∧
    (loadMoreModel s (.success batch newLast)).messages.take batch.length
        = batch ∧
    (loadMoreModel s (.success batch newLast)).messages.drop batch.length
        = s.messages ∧
    ((loadMoreModel s (.success batch newLast)).hasMore = true ↔
        batch.length = 20) := by
  have hm : loadMoreModel s (.success batch newLast) =
      { s with messages := batch ++ s.messages, lastDoc := newLast,
               hasMore := (batch.length == 20), isLoadingMore := false } := by
    simp [loadMoreModel, h1, h2, messagesReducer]
  rw [hm]
  refine ⟨by simp, ?_, ?_, by simp⟩
  · exact List.take_left batch s.messages
  · exact List.drop_left batch s.messages

/-- Witness for C6: a 1-element batch over a 2-element list — lengths
add, order is preserved, and `hasMore` flips to false (1 < 20). -/
theorem loadMore_prepends_witness :
    ((loadMoreModel
        { messagesInitialState with
            messages := [mkMsg "a" none, mkMsg "b" none], isLoading := false }
        (.success [mkMsg "old" none] (some "c2"))).messages.length
      = [mkMsg "old" none].length + [mkMsg "a" none, mkMsg "b" none].length) ∧
    ((loadMoreModel
        { messagesInitialState with
            messages := [mkMsg "a" none, mkMsg "b" none], isLoading := false }
        (.success [mkMsg "old" none] (some "c2"))).messages.take 1
      = [mkMsg "old" none]) ∧
    ((loadMoreModel
        { messagesInitialState with
            messages := [mkMsg "a" none, mkMsg "b" none], isLoading := false }
        (.success [mkMsg "old" none] (some "c2"))).messages.drop 1
      = [mkMsg "a" none, mkMsg "b" none]) ∧
    ((loadMoreModel
        { messagesInitialState with
            messages := [mkMsg "a" none, mkMsg "b" none], isLoading := false }
        (.success [mkMsg "old" none] (some "c2"))).hasMore = true ↔
      [mkMsg "old" none].length = 20) :=
  loadMore_prepends
    { messagesInitialState with
        messages := [mkMsg "a" none, mkMsg "b" none], isLoading := false }
    [mkMsg "old" none] (some "c2") rfl rfl

/-- C7 (code bug): at a ready state (`hasMore`, not loading) a failing
older-page query leaves `messages`, `hasMore` and the cursor unchanged,
but `isLoadingMore` stays `true` — the `catch` branch of `loadMore`
never dispatches `SET_LOADING_MORE false` — so a subsequent
`OlderPageRequested` is a permanent no-op and no retry is possible,
contradicting the claimed reset to `false`. -/
theorem loadMore_failure_leaves_loading :
    (loadMoreModel
        { messagesInitialState with
            messages := [mkMsg "a" none], isLoading := false }
        .failure).isLoadingMore = true ∧
    (loadMoreModel
        { messagesInitialState with
            messages := [mkMsg "a" none], isLoading := false }
        .failure).messages = [mkMsg "a" none] ∧
    (loadMoreModel
        { messagesInitialState with
            messages := [mkMsg "a" none], isLoading := false }
        .failure).hasMore = true ∧
    (loadMoreModel
        { messagesInitialState with
            messages := [mkMsg "a" none], isLoading := false }
        .failure).lastDoc = none ∧
    loadMoreModel
        (loadMoreModel
          { messagesInitialState with
              messages := [mkMsg "a" none], isLoading := false }
          .failure)
        (.success [mkMsg "old" none] (some "c2"))
      = loadMoreModel
          { messagesInitialState with
              messages := [mkMsg "a" none], isLoading := false }
          .failure := by
  refine ⟨rfl, rfl, rfl, rfl, ?_⟩
  decide

/-- C1 (counterexample): the claim as stated is false.  From the empty
Ledger, the `REALTIME_ADDED` sequence `[{id:"srv"}, {id:"n"},
{id:"srv", nonce:"n"}]` — which repeats document id `"srv"` — ends with
TWO messages carrying id `"srv"`: the third event's nonce matches the
id of the unrelated second message, so the in-place substitution branch
runs without the dedup-by-id check. -/
theorem realtimeAdded_dedup_counterexample :
    countId (processAdded messagesInitialState
        [mkMsg "srv" none, mkMsg "n" none, mkMsg "srv" (some "n")]).messages
        "srv" = 2 ∧
    ¬ countId (processAdded messagesInitialState
        [mkMsg "srv" none, mkMsg "n" none, mkMsg "srv" (some "n")]).messages
        "srv" = 1 := by
  decide

/-- C1 (amended): for every starting Ledger state in which at most one
message carries id `i`, and every sequence of `StoreAddedPushed` events
none of which carries a truthy nonce, if the start state already has a
message with id `i` or some event carries document id `i` (repetitions
allowed), then after processing the whole sequence exactly one message
carries id `i`. -/
theorem realtimeAdded_dedup (s : LState) (evts : List Message) (i : String)
    (hn : ∀ e ∈ evts, nonceTruthy e.nonce = false)
    (hs : countId s.messages i ≤ 1)
    (hi : countId s.messages i = 1 ∨ ∃ e ∈ evts, e.id = i) :
    countId (processAdded s evts).messages i = 1 := by
  induction evts generalizing s with
  | nil =>
      rcases hi with h1 | ⟨e, he, _⟩
      · simpa [processAdded] using h1
      · exact absurd he (List.not_mem_nil e)
  | cons e rest ih =>
      have hne := hn e (List.mem_cons_self e rest)
      have hnr : ∀ x ∈ rest, nonceTruthy x.nonce = false :=
        fun x hx => hn x (List.mem_cons_of_mem e hx)
      have hstep : processAdded s (e :: rest) =
          processAdded (realtimeAddedFallback s e) rest := by
        simp [processAdded, realtimeAdded_eq_fallback s e hne]
      rw [hstep]
      have hcount := countId_fallback s e i
      by_cases hdup : 0 < countId s.messages e.id
      · rw [if_pos hdup] at hcount
        refine ih (realtimeAddedFallback s e) hnr ?_ ?_
        · rw [hcount]; exact hs
        · rcases hi with h1 | ⟨e', he', hei⟩
          · exact Or.inl (by rw [hcount]; exact h1)
          · rcases List.mem_cons.mp he' with rfl | hmem
            · left
              rw [hcount]
              have : 0 < countId s.messages i := hei ▸ hdup
              omega
            · exact Or.inr ⟨e', hmem, hei⟩
      · rw [if_neg hdup] at hcount
        by_cases heq : e.id = i
        · have hzero : countId s.messages i = 0 := by
            rw [heq] at hdup; omega
          refine ih (realtimeAddedFallback s e) hnr ?_ (Or.inl ?_)
          · rw [hcount, if_pos heq, hzero]
          · rw [hcount, if_pos heq, hzero]
        · rw [if_neg heq, Nat.add_zero] at hcount
          refine ih (realtimeAddedFallback s e) hnr
            (by rw [hcount]; exact hs) ?_
          rcases hi with h1 | ⟨e', he', hei⟩
          · exact Or.inl (by rw [hcount]; exact h1)
          · rcases List.mem_cons.mp he' with rfl | hmem
            · exact absurd hei heq
            · exact Or.inr ⟨e', hmem, hei⟩

/-- Witness for the amended C1: two nonce-free pushes repeating id `"a"`
into the empty Ledger leave exactly one message with id `"a"`. -/
theorem realtimeAdded_dedup_witness :
    countId (processAdded messagesInitialState
        [mkMsg "a" none, mkMsg "a" none]).messages "a" = 1 :=
  realtimeAdded_dedup messagesInitialState
    [mkMsg "a" none, mkMsg "a" none] "a" (by decide) (by decide)
    (Or.inr ⟨mkMsg "a" none, by decide, rfl⟩)

/-- C2: when the pending optimistic message sits at index `k` (the first
— and in a deduplicated Ledger the only — entry whose id equals the
nonce `n`), a `REALTIME_ADDED` event carrying nonce `n` substitutes the
confirmed document in place: the list keeps its length, the document
sits at index `k`, and every other entry is unchanged. -/
theorem realtimeAdded_substitutes_in_place (s : LState) (e : Message)
    (n : String) (k : Nat) (hn : e.nonce = some n) (hne : n ≠ "")
    (hk : k < s.messages.length)
    (hid : (s.messages.get ⟨k, hk⟩).id = n)
    (hfirst : ∀ j (hj : j < k),
      (s.messages.get ⟨j, Nat.lt_trans hj hk⟩).id ≠ n) :
    (messagesReducer s (.realtimeAdded e)).messages = s.messages.set k e ∧
    (messagesReducer s (.realtimeAdded e)).messages.length
        = s.messages.length ∧
    (∀ hk2 : k < (messagesReducer s (.realtimeAdded e)).messages.length,
      (messagesReducer s (.realtimeAdded e)).messages.get ⟨k, hk2⟩ = e) ∧
    (∀ j (hj : j < s.messages.length), j ≠ k →
      ∀ hj2 : j < (messagesReducer s (.realtimeAdded e)).messages.length,
      (messagesReducer s (.realtimeAdded e)).messages.get ⟨j, hj2⟩
        = s.messages.get ⟨j, hj⟩) := by
  have hfind : s.messages.findIdx? (fun x => x.id == n) = some k := by
    rw [List.findIdx?_eq_some_iff_getElem]
    refine ⟨hk, by simpa using hid, fun j hj => ?_⟩
    simpa using hfirst j hj
  have hbeq : (n == "") = false := by simpa using hne
  have hmsgs : (messagesReducer s (.realtimeAdded e)).messages
      = s.messages.set k e := by
    simp [messagesReducer, hn, hbeq, hfind]
  refine ⟨hmsgs, ?_, ?_, ?_⟩
  · rw [hmsgs]; exact List.length_set s.messages k e
  · intro hk2
    simp only [hmsgs, List.get_eq_getElem]
    exact List.getElem_set_self (by simpa [hmsgs] using hk2)
  · intro j hj hjk hj2
    simp only [hmsgs, List.get_eq_getElem]
    exact List.getElem_set_ne (by omega) _

/-- Witness for C2: the spec's own scenario — `[A, B, C]` with the
optimistic `C` at index 2 (`id = nonce = temp_1`), confirmed by
`{id: "srv1", nonce: "temp_1"}`: the result is `[A, B, C']` with `C'`
at index 2 and `A`, `B` untouched. -/
theorem realtimeAdded_substitutes_in_place_witness :
    ((messagesReducer
        { messagesInitialState with
            messages := [mkMsg "A" none, mkMsg "B" none,
              mkMsg "temp_1" (some "temp_1")] }
        (.realtimeAdded (mkMsg "srv1" (some "temp_1")))).messages
      = [mkMsg "A" none, mkMsg "B" none,
          mkMsg "temp_1" (some "temp_1")].set 2
          (mkMsg "srv1" (some "temp_1"))) ∧
    ((messagesReducer
        { messagesInitialState with
            messages := [mkMsg "A" none, mkMsg "B" none,
              mkMsg "temp_1" (some "temp_1")] }
        (.realtimeAdded (mkMsg "srv1" (some "temp_1")))).messages.length
      = [mkMsg "A" none, mkMsg "B" none,
          mkMsg "temp_1" (some "temp_1")].length) ∧
    ((∀ hk2 : 2 < (messagesReducer
        { messagesInitialState with
            messages := [mkMsg "A" none, mkMsg "B" none,
              mkMsg "temp_1" (some "temp_1")] }
        (.realtimeAdded (mkMsg "srv1" (some "temp_1")))).messages.length,
      (messagesReducer
        { messagesInitialState with
            messages := [mkMsg "A" none, mkMsg "B" none,
              mkMsg "temp_1" (some "temp_1")] }
        (.realtimeAdded (mkMsg "srv1" (some "temp_1")))).messages.get
          ⟨2, hk2⟩ = mkMsg "srv1" (some "temp_1"))) ∧
    (∀ j (hj : j < [mkMsg "A" none, mkMsg "B" none,
          mkMsg "temp_1" (some "temp_1")].length), j ≠ 2 →
      ∀ hj2 : j < (messagesReducer
        { messagesInitialState with
            messages := [mkMsg "A" none, mkMsg "B" none,
              mkMsg "temp_1" (some "temp_1")] }
        (.realtimeAdded (mkMsg "srv1" (some "temp_1")))).messages.length,
      (messagesReducer
        { messagesInitialState with
            messages := [mkMsg "A" none, mkMsg "B" none,
              mkMsg "temp_1" (some "temp_1")] }
        (.realtimeAdded (mkMsg "srv1" (some "temp_1")))).messages.get
          ⟨j, hj2⟩
        = [mkMsg "A" none, mkMsg "B" none,
            mkMsg "temp_1" (some "temp_1")].get ⟨j, hj⟩) :=
  realtimeAdded_substitutes_in_place
    { messagesInitialState with
        messages := [mkMsg "A" none, mkMsg "B" none,
          mkMsg "temp_1" (some "temp_1")] }
    (mkMsg "srv1" (some "temp_1")) "temp_1" 2 rfl (by decide) (by decide)
    (by decide) (by decide)

/-- C5: `REALTIME_MODIFIED` with a pushed document (which carries no
explicitly-`null` enrichment field — every store writer guards those
keys with truthiness) merges the incoming fields into each message whose
id matches, leaves every other message and the list length untouched,
leaves the whole state unchanged when no message matches, and never
reverts an already-set enrichment field to null: only present incoming
fields overwrite. -/
theorem realtimeModified_merges (s : LState) (e : Message)
    (hnn : noNullEnrichment e) :
    ((∀ m ∈ s.messages, m.id ≠ e.id) →
        messagesReducer s (.realtimeModified e) = s) ∧
    (messagesReducer s (.realtimeModified e)).messages.length
        = s.messages.length ∧
    (∀ k (hk : k < s.messages.length),
      ∀ hk2 : k < (messagesReducer s (.realtimeModified e)).messages.length,
      ((s.messages.get ⟨k, hk⟩).id ≠ e.id →
          (messagesReducer s (.realtimeModified e)).messages.get ⟨k, hk2⟩
            = s.messages.get ⟨k, hk⟩) ∧
      ((s.messages.get ⟨k, hk⟩).id = e.id →
          (messagesReducer s (.realtimeModified e)).messages.get ⟨k, hk2⟩
            = mergeMsg (s.messages.get ⟨k, hk⟩) e ∧
          (∀ v, (s.messages.get ⟨k, hk⟩).sentiment = JField.val v →
            ∃ w, ((messagesReducer s (.realtimeModified e)).messages.get
              ⟨k, hk2⟩).sentiment = JField.val w) ∧
          (∀ v, (s.messages.get ⟨k, hk⟩).entities = JField.val v →
            ∃ w, ((messagesReducer s (.realtimeModified e)).messages.get
              ⟨k, hk2⟩).entities = JField.val w) ∧
          (∀ v, (s.messages.get ⟨k, hk⟩).translation = JField.val v →
            ∃ w, ((messagesReducer s (.realtimeModified e)).messages.get
              ⟨k, hk2⟩).translation = JField.val w))) := by
  have hmsgs : (messagesReducer s (.realtimeModified e)).messages
      = s.messages.map (fun x => if x.id == e.id then mergeMsg x e else x) :=
    rfl
  refine ⟨?_, ?_, ?_⟩
  · intro h
    have hmap : s.messages.map
        (fun x => if x.id == e.id then mergeMsg x e else x) = s.messages := by
      refine map_eq_self_of_mem _ _ (fun x hx => ?_)
      simp [h x hx]
    exact lstate_eq_of_messages_eq s _ hmap
  · rw [hmsgs]; exact List.length_map s.messages _
  · intro k hk hk2
    have hget : (messagesReducer s (.realtimeModified e)).messages.get
        ⟨k, hk2⟩ =
        (fun x => if x.id == e.id then mergeMsg x e else x)
          (s.messages.get ⟨k, hk⟩) := by
      simp only [hmsgs, List.get_eq_getElem, List.getElem_map]
    constructor
    · intro hne
      have hb : ((s.messages.get ⟨k, hk⟩).id == e.id) = false := by
        simpa using hne
      rw [hget]
      simp only [hb, Bool.false_eq_true, if_false]
    · intro heq
      have hb : ((s.messages.get ⟨k, hk⟩).id == e.id) = true := by
        simpa using heq
      have hmerge : (messagesReducer s (.realtimeModified e)).messages.get
          ⟨k, hk2⟩ = mergeMsg (s.messages.get ⟨k, hk⟩) e := by
        rw [hget]
        simp only [hb, if_true]
      refine ⟨hmerge, ?_, ?_, ?_⟩
      · intro v hv
        rw [hmerge]
        exact mergeField_preserves_val _ _ v hv hnn.1
      · intro v hv
        rw [hmerge]
        exact mergeField_preserves_val _ _ v hv hnn.2.1
      · intro v hv
        rw [hmerge]
        exact mergeField_preserves_val _ _ v hv hnn.2.2

/-- Witness for C5: a push for an absent id is a no-op; for the matching
message the length is kept and the already-set entities field stays a
value (is not reverted to null). -/
theorem realtimeModified_merges_witness :
    (messagesReducer c5Other (.realtimeModified c5Event) = c5Other) ∧
    ((messagesReducer c5State (.realtimeModified c5Event)).messages.length
        = c5State.messages.length) ∧
    (∃ w, ((messagesReducer c5State (.realtimeModified c5Event)).messages.get
        ⟨0, by decide⟩).entities = JField.val w) :=
  ⟨(realtimeModified_merges c5Other c5Event (by decide)).1 (by decide),
   (realtimeModified_merges c5State c5Event (by decide)).2.1,
   (((realtimeModified_merges c5State c5Event (by decide)).2.2 0 (by decide)
        (by decide)).2 (by decide)).2.2.1 ["x"] (by decide)⟩

/-- C4: over any well-formed interleaving of atomic event-loop steps —
each send contributing one `start` (counter increment, `SET_TYPING
true`) and exactly one `resolve` (the guaranteed decrement in the
store-append `catch` or the `finally` of `fetchAIResponse`, on success
and failure alike) — the counter equals starts minus resolves (each
request is decremented exactly once), and the composing indicator is
never false while at least one request is still in flight.  Since the
statement holds for every well-formed trace it holds at every
intermediate point of a longer one. -/
theorem composing_indicator_correct (l : List SendEvt) (s : TypingState)
    (hv : noUnderflow s.count l)
    (hI : 0 < s.count → s.isTyping = true) :
    (runTyping s l).count + countResolves l = s.count + countStarts l ∧
    (0 < (runTyping s l).count → (runTyping s l).isTyping = true) := by
  induction l generalizing s with
  | nil =>
      exact ⟨by simp [runTyping, countStarts, countResolves],
        by simpa [runTyping] using hI⟩
  | cons e rest ih =>
      cases e with
      | start =>
          have hv' : noUnderflow (s.count + 1) rest := hv
          have hrun : runTyping s (.start :: rest)
              = runTyping ⟨s.count + 1, true⟩ rest := rfl
          have := ih ⟨s.count + 1, true⟩ hv' (fun _ => rfl)
          rw [hrun]
          refine ⟨?_, this.2⟩
          have h1 := this.1
          simp [countStarts, countResolves, List.countP_cons] at h1 ⊢
          omega
      | resolve b =>
          obtain ⟨hpos, hv'⟩ := hv
          have hrun : runTyping s (.resolve b :: rest)
              = runTyping ⟨s.count - 1,
                  if s.count - 1 = 0 then false else s.isTyping⟩ rest := rfl
          have hI' : 0 < s.count - 1 →
              (if s.count - 1 = 0 then false else s.isTyping) = true := by
            intro h
            rw [if_neg (by omega)]
            exact hI hpos
          have := ih ⟨s.count - 1,
              if s.count - 1 = 0 then false else s.isTyping⟩ hv' hI'
          rw [hrun]
          refine ⟨?_, this.2⟩
          have h1 := this.1
          simp [countStarts, countResolves, List.countP_cons] at h1 ⊢
          omega

/-- Witness for C4 at the spec's scenario: two concurrent sends, the
first resolving in failure and the second in success — after the full
trace the counter is back at starts minus resolves and the indicator
obligation holds. -/
theorem composing_indicator_correct_witness :
    ((runTyping ⟨0, false⟩
        [.start, .start, .resolve false, .resolve true]).count
      + countResolves [.start, .start, .resolve false, .resolve true]
      = (0 : Nat)
        + countStarts [.start, .start, .resolve false, .resolve true]) ∧
    (0 < (runTyping ⟨0, false⟩
        [.start, .start, .resolve false, .resolve true]).count →
      (runTyping ⟨0, false⟩
        [.start, .start, .resolve false, .resolve true]).isTyping = true) :=
  composing_indicator_correct
    [.start, .start, .resolve false, .resolve true] ⟨0, false⟩
    (by decide) (by decide)

/-- C9 (counterexample): the claim as stated is false.  When the first
call's service request fails, nothing is cached (`null` is returned and
only successes are written through), so a second identical call issues a
second underlying service call: two calls, not at most one. -/
theorem analyzeSentiment_two_service_calls :
    (analyzeSentimentM "hello"
        (analyzeSentimentM "hello" svcFailWorld).2).2.svcCalls = 2 ∧
    ¬ (analyzeSentimentM "hello"
        (analyzeSentimentM "hello" svcFailWorld).2).2.svcCalls
      ≤ svcFailWorld.svcCalls + 1 := by
  constructor
  · rfl
  · intro h
    simp only [show (analyzeSentimentM "hello"
        (analyzeSentimentM "hello" svcFailWorld).2).2.svcCalls = 2 from rfl,
      show svcFailWorld.svcCalls = 0 from rfl] at h
    omega

/-- C9 (amended): provided the underlying service call succeeds and the
cache write persists, calling `analyzeSentiment` twice with identical
text issues at most one underlying service call — the second call is
answered from the cache and issues none — and independently of any of
that, a failing cache write is swallowed silently: the returned result
is the same whether or not `sessionStorage.setItem` throws. -/
theorem sentiment_cache_idempotent (text d : String) (w : CacheWorld)
    (hsvc : w.svcSentiment text = some d) (hput : w.putFails = false) :
    (analyzeSentimentM text (analyzeSentimentM text w).2).2.svcCalls
        ≤ w.svcCalls + 1 ∧
    (analyzeSentimentM text (analyzeSentimentM text w).2).2.svcCalls
        = (analyzeSentimentM text w).2.svcCalls ∧
    (∃ v, (analyzeSentimentM text (analyzeSentimentM text w).2).1
        = some v) ∧
    (∀ b, (analyzeSentimentM text { w with putFails := b }).1
        = (analyzeSentimentM text w).1) := by
  have hgetb : ∀ b, cacheGet { w with putFails := b } ("sentiment:" ++ text)
      = cacheGet w ("sentiment:" ++ text) := fun b => rfl
  have hcalls : ∀ w2 k v, (cacheSet w2 k v).svcCalls = w2.svcCalls := by
    intro w2 k v
    unfold cacheSet
    split <;> rfl
  cases hc : cacheGet w ("sentiment:" ++ text) with
  | some v =>
      have h1 : analyzeSentimentM text w = (some v, w) := by
        simp [analyzeSentimentM, hc]
      refine ⟨?_, ?_, ?_, ?_⟩
      · rw [h1, h1]
        exact Nat.le_succ w.svcCalls
      · rw [h1, h1]
      · rw [h1, h1]; exact ⟨v, rfl⟩
      · intro b
        rw [h1]
        simp [analyzeSentimentM, hgetb b, hc]
  | none =>
      have h1 : analyzeSentimentM text w =
          (some d, cacheSet { w with svcCalls := w.svcCalls + 1 }
            ("sentiment:" ++ text) d) := by
        simp [analyzeSentimentM, hc, hsvc]
      have hput' : (cacheSet { w with svcCalls := w.svcCalls + 1 }
          ("sentiment:" ++ text) d).cache
          = ("sentiment:" ++ text, d) :: w.cache := by
        unfold cacheSet
        rw [if_neg (by simp [hput])]
      have h2get : cacheGet (cacheSet { w with svcCalls := w.svcCalls + 1 }
          ("sentiment:" ++ text) d) ("sentiment:" ++ text) = some d := by
        unfold cacheGet
        rw [hput']
        simp [List.find?]
      have h2 : analyzeSentimentM text (analyzeSentimentM text w).2
          = (some d, (analyzeSentimentM text w).2) := by
        rw [h1]
        simp [analyzeSentimentM, h2get]
      refine ⟨?_, ?_, ?_, ?_⟩
      · rw [h2, h1]
        simp [hcalls]
      · rw [h2]
      · rw [h2]; exact ⟨d, rfl⟩
      · intro b
        rw [h1]
        simp [analyzeSentimentM, hgetb b, hc, hsvc]

/-- Witness for the amended C9 at a concrete working world. -/
theorem sentiment_cache_idempotent_witness :
    ((analyzeSentimentM "hello"
        (analyzeSentimentM "hello" svcOkWorld).2).2.svcCalls
      ≤ svcOkWorld.svcCalls + 1) ∧
    ((analyzeSentimentM "hello"
        (analyzeSentimentM "hello" svcOkWorld).2).2.svcCalls
      = (analyzeSentimentM "hello" svcOkWorld).2.svcCalls) ∧
    (∃ v, (analyzeSentimentM "hello"
        (analyzeSentimentM "hello" svcOkWorld).2).1 = some v) ∧
    (∀ b, (analyzeSentimentM "hello"
        { svcOkWorld with putFails := b }).1
      = (analyzeSentimentM "hello" svcOkWorld).1) :=
  sentiment_cache_idempotent "hello" "POS" svcOkWorld rfl rfl

end Shloka
